import Mathlib

/-!
Verification of the portfolio content backend (`backend_merged.py`).

The development shallowly embeds the backend's JSON document store
(`load_json` / `save_json`), its upload store (`save_upload_file`) and the
record services (profile, projects, config endpoints) as pure Lean
functions over an explicit `Store` state, and proves the documented
persistence and service-level properties about them.

JSON documents are modelled by the inductive type `Json` (null, booleans,
integers, strings, arrays, objects); file contents are modelled as
`List Char`.  The serializer `Json.dumps` models `json.dump` (whitespace
is insignificant to the parser, so the rendering is compact), and the
executable parser `loads` models `json.loads`, returning `none` exactly
where the Python parser raises.
-/

set_option linter.unusedVariables false

/-- JSON values, as produced by Python's `json.loads`: `None`, booleans,
integers, strings, arrays and objects.  (Float literals do not occur in any
document this backend writes; numbers are modelled as integers.) -/
inductive Json where
  | null
  | bool (b : Bool)
  | num (n : Int)
  | str (s : String)
  | arr (xs : List Json)
  | obj (kvs : List (String × Json))

/-- Structural induction for `Json` that threads through the nested lists of
array elements and object values. -/
theorem Json.myInd (P : Json → Prop)
    (h0 : P .null) (h1 : ∀ b, P (.bool b)) (h2 : ∀ n, P (.num n)) (h3 : ∀ s, P (.str s))
    (h4 : ∀ xs, (∀ x ∈ xs, P x) → P (.arr xs))
    (h5 : ∀ kvs, (∀ kv ∈ kvs, P kv.2) → P (.obj kvs)) :
    ∀ j, P j := by
  have key : ∀ n j, sizeOf j ≤ n → P j := by
    intro n
    induction n with
    | zero => intro j h; cases j <;> simp at h
    | succ n ih =>
      intro j h
      cases j with
      | null => exact h0
      | bool b => exact h1 b
      | num m => exact h2 m
      | str s => exact h3 s
      | arr xs =>
        apply h4
        intro x hx
        apply ih
        have := List.sizeOf_lt_of_mem hx
        simp at h
        omega
      | obj kvs =>
        apply h5
        intro kv hkv
        apply ih
        have h1' := List.sizeOf_lt_of_mem hkv
        have h2' : sizeOf kv.2 < sizeOf kv := by
          obtain ⟨a, b⟩ := kv
          simp
        simp at h
        omega
  intro j
  exact key (sizeOf j) j le_rfl

mutual
/-- Boolean equality test on JSON values. -/
def Json.beq : Json → Json → Bool
  | .null, .null => true
  | .bool a, .bool b => a == b
  | .num a, .num b => a == b
  | .str a, .str b => a == b
  | .arr a, .arr b => beqList a b
  | .obj a, .obj b => beqObj a b
  | _, _ => false
/-- Boolean equality test on lists of JSON values. -/
def beqList : List Json → List Json → Bool
  | [], [] => true
  | x :: xs, y :: ys => Json.beq x y && beqList xs ys
  | _, _ => false
/-- Boolean equality test on JSON object member lists. -/
def beqObj : List (String × Json) → List (String × Json) → Bool
  | [], [] => true
  | kv :: xs, kw :: ys => kv.1 == kw.1 && Json.beq kv.2 kw.2 && beqObj xs ys
  | _, _ => false
end

theorem Json.beq_iff : ∀ a b, Json.beq a b = true ↔ a = b := by
  intro a
  induction a using Json.myInd with
  | h0 => intro b; cases b <;> simp [Json.beq]
  | h1 x => intro b; cases b <;> simp [Json.beq]
  | h2 x => intro b; cases b <;> simp [Json.beq]
  | h3 x => intro b; cases b <;> simp [Json.beq]
  | h4 xs ih =>
    intro b
    cases b <;> simp [Json.beq]
    case arr ys =>
      induction xs generalizing ys with
      | nil => cases ys <;> simp [beqList]
      | cons x xs ihl =>
        cases ys with
        | nil => simp [beqList]
        | cons y ys =>
          simp [beqList, ih x (by simp)]
          intro _
          exact ihl (fun z hz => ih z (by simp [hz])) ys
  | h5 kvs ih =>
    intro b
    cases b <;> simp [Json.beq]
    case obj ys =>
      induction kvs generalizing ys with
      | nil => cases ys <;> simp [beqObj]
      | cons kv kvs ihl =>
        cases ys with
        | nil => simp [beqObj]
        | cons kw ys =>
          obtain ⟨k1, v1⟩ := kv
          obtain ⟨k2, v2⟩ := kw
          simp [beqObj, ih (k1, v1) (by simp)]
          intro _ _
          exact ihl (fun z hz => ih z (by simp [hz])) ys

instance : DecidableEq Json := fun a b => decidable_of_iff _ (Json.beq_iff a b)

/-- Whitespace characters recognised between JSON tokens. -/
def isWs (c : Char) : Bool := c = ' ' || c = '\n' || c = '\t' || c = '\r'

/-- Escape a single character of a JSON string literal (quote and backslash
need escaping; every other character this backend ever writes is emitted
verbatim, as `json.dump` does with `ensure_ascii=False`). -/
def escChar (c : Char) : List Char :=
  if c = '"' || c = '\\' then ['\\', c] else [c]

/-- Escape a whole string body. -/
def escList : List Char → List Char
  | [] => []
  | c :: t => escChar c ++ escList t

/-- The decimal digit character for `d` (digits above nine do not occur). -/
def digitChar (d : Nat) : Char :=
  match d with
  | 0 => '0' | 1 => '1' | 2 => '2' | 3 => '3' | 4 => '4'
  | 5 => '5' | 6 => '6' | 7 => '7' | 8 => '8' | _ => '9'

/-- Little-endian decimal digits of `k`, with explicit fuel (any fuel at
least `k` is enough). -/
def natDigitsRev (fuel k : Nat) : List Char :=
  match fuel, k with
  | 0, _ => []
  | _, 0 => []
  | f + 1, k => digitChar (k % 10) :: natDigitsRev f (k / 10)

/-- Decimal rendering of a natural number. -/
def dumpNat (k : Nat) : List Char :=
  if k = 0 then ['0'] else (natDigitsRev k k).reverse

/-- Decimal rendering of an integer, as Python renders `int`. -/
def dumpInt : Int → List Char
  | Int.ofNat m => dumpNat m
  | Int.negSucc m => '-' :: dumpNat (m + 1)

mutual
/-- Serialization of a JSON value, modelling `json.dump`.  The reference
implementation passes `indent=4`; inter-token whitespace is insignificant
to `json.loads`, so the rendering here is compact. -/
def Json.dumps : Json → List Char
  | .null => "null".data
  | .bool true => "true".data
  | .bool false => "false".data
  | .num n => dumpInt n
  | .str s => '"' :: escList s.data ++ ['"']
  | .arr xs => '[' :: dumpsList xs ++ [']']
  | .obj kvs => '\x7b' :: dumpsObj kvs ++ ['\x7d']
/-- Comma-separated rendering of array elements. -/
def dumpsList : List Json → List Char
  | [] => []
  | [x] => Json.dumps x
  | x :: y :: t => Json.dumps x ++ ',' :: dumpsList (y :: t)
/-- Comma-separated rendering of object members. -/
def dumpsObj : List (String × Json) → List Char
  | [] => []
  | [kv] => '"' :: escList kv.1.data ++ '"' :: ':' :: Json.dumps kv.2
  | kv :: kw :: t =>
    ('"' :: escList kv.1.data ++ '"' :: ':' :: Json.dumps kv.2) ++ ',' :: dumpsObj (kw :: t)
end

/-- Drop leading whitespace. -/
def skipWs : List Char → List Char
  | [] => []
  | c :: t => if isWs c then skipWs t else c :: t

/-- Consume an expected literal; `none` if the input does not start with it. -/
def dropLit : List Char → List Char → Option (List Char)
  | [], s => some s
  | _ :: _, [] => none
  | c :: t, d :: s => if c = d then dropLit t s else none

/-- Numeric value of a decimal digit character. -/
def charDigit (c : Char) : Nat :=
  match c with
  | '0' => 0 | '1' => 1 | '2' => 2 | '3' => 3 | '4' => 4
  | '5' => 5 | '6' => 6 | '7' => 7 | '8' => 8 | _ => 9

/-- Value of a big-endian decimal digit string. -/
def foldDigits (l : List Char) : Nat := l.foldl (fun a c => 10 * a + charDigit c) 0

/-- Resolve a backslash escape inside a JSON string literal. -/
def unesc (c : Char) : Char :=
  match c with
  | 'n' => '\n' | 't' => '\t' | 'r' => '\r' | 'b' => '\x08' | 'f' => '\x0c'
  | _ => c

/-- Parse the body of a JSON string literal after its opening quote, up to
and including the closing quote; returns the decoded characters and the
rest of the input. -/
def parseStrBody : List Char → Option (List Char × List Char)
  | [] => none
  | c :: r =>
    if c = '"' then some ([], r)
    else if c = '\\' then
      match r with
      | [] => none
      | e :: r2 => (parseStrBody r2).map (fun p => (unesc e :: p.1, p.2))
    else (parseStrBody r).map (fun p => (c :: p.1, p.2))

mutual
/-- Parse one JSON value (with explicit recursion fuel), returning the value
and the remaining input, or `none` where `json.loads` would raise. -/
def parseVal : Nat → List Char → Option (Json × List Char)
  | 0, _ => none
  | fuel + 1, s =>
    match skipWs s with
    | [] => none
    | c :: r =>
      if c = 'n' then (dropLit ['u', 'l', 'l'] r).map (fun r2 => (Json.null, r2))
      else if c = 't' then (dropLit ['r', 'u', 'e'] r).map (fun r2 => (Json.bool true, r2))
      else if c = 'f' then (dropLit ['a', 'l', 's', 'e'] r).map (fun r2 => (Json.bool false, r2))
      else if c = '"' then (parseStrBody r).map (fun p => (Json.str (String.mk p.1), p.2))
      else if c = '[' then
        match skipWs r with
        | d :: r2 =>
          if d = ']' then some (Json.arr [], r2)
          else
            match parseElems fuel r with
            | some (vs, r2) => some (Json.arr vs, r2)
            | none => none
        | [] => none
      else if c = '\x7b' then
        match skipWs r with
        | d :: r2 =>
          if d = '\x7d' then some (Json.obj [], r2)
          else
            match parseMembers fuel r with
            | some (kvs, r2) => some (Json.obj kvs, r2)
            | none => none
        | [] => none
      else if c = '-' then
        let ds := r.takeWhile Char.isDigit
        if ds = [] then none
        else some (Json.num (-(Int.ofNat (foldDigits ds))), r.dropWhile Char.isDigit)
      else if c.isDigit then
        some (Json.num (Int.ofNat (foldDigits ((c :: r).takeWhile Char.isDigit))),
              (c :: r).dropWhile Char.isDigit)
      else none
/-- Parse the elements of a non-empty JSON array after its opening bracket,
up to and including the closing bracket. -/
def parseElems : Nat → List Char → Option (List Json × List Char)
  | 0, _ => none
  | fuel + 1, s =>
    match parseVal fuel s with
    | none => none
    | some (v, r) =>
      match skipWs r with
      | d :: r2 =>
        if d = ',' then
          match parseElems fuel r2 with
          | some (vs, r3) => some (v :: vs, r3)
          | none => none
        else if d = ']' then some ([v], r2)
        else none
      | [] => none
/-- Parse the members of a non-empty JSON object after its opening brace,
up to and including the closing brace. -/
def parseMembers : Nat → List Char → Option (List (String × Json) × List Char)
  | 0, _ => none
  | fuel + 1, s =>
    match skipWs s with
    | c :: r =>
      if c = '"' then
        match parseStrBody r with
        | none => none
        | some (k, r2) =>
          match skipWs r2 with
          | d :: r3 =>
            if d = ':' then
              match parseVal fuel r3 with
              | none => none
              | some (v, r4) =>
                match skipWs r4 with
                | e :: r5 =>
                  if e = ',' then
                    match parseMembers fuel r5 with
                    | some (kvs, r6) => some ((String.mk k, v) :: kvs, r6)
                    | none => none
                  else if e = '\x7d' then some ([(String.mk k, v)], r5)
                  else none
                | [] => none
            else none
          | [] => none
      else none
    | [] => none
end

/-- Model of `json.loads`: parse a complete document (surrounding
whitespace allowed), `none` where the Python call raises `JSONDecodeError`.
The fuel `s.length + 1` always suffices, since every recursive descent
consumes input. -/
def loads (s : List Char) : Option Json :=
  match parseVal (s.length + 1) s with
  | some (j, r) => if skipWs r = [] then some j else none
  | none => none

mutual
/-- Fuel needed by `parseVal` to parse the serialization of a value. -/
def Json.need : Json → Nat
  | .arr xs => 1 + needList xs
  | .obj kvs => 1 + needObj kvs
  | _ => 1
/-- Fuel needed by `parseElems` for a serialized element list. -/
def needList : List Json → Nat
  | [] => 0
  | x :: t => 1 + max (Json.need x) (needList t)
/-- Fuel needed by `parseMembers` for a serialized member list. -/
def needObj : List (String × Json) → Nat
  | [] => 0
  | kv :: t => 1 + max (Json.need kv.2) (needObj t)
end

theorem digitChar_isDigit (d : Nat) : (digitChar d).isDigit = true := by
  unfold digitChar
  split <;> rfl

theorem charDigit_digitChar (d : Nat) (h : d < 10) : charDigit (digitChar d) = d := by
  interval_cases d <;> rfl

theorem ws_cases (c : Char) (h : isWs c = true) :
    c = ' ' ∨ c = '\n' ∨ c = '\t' ∨ c = '\r' := by
  simp only [isWs, Bool.or_eq_true, decide_eq_true_eq] at h
  tauto

theorem isDigit_not_ws (c : Char) (h : c.isDigit = true) : isWs c = false := by
  cases hw : isWs c
  · rfl
  · exfalso
    rcases ws_cases c hw with h1 | h1 | h1 | h1 <;> subst h1 <;> simp [Char.isDigit] at h

theorem isDigit_ne (c : Char) (h : c.isDigit = true) :
    c ≠ 'n' ∧ c ≠ 't' ∧ c ≠ 'f' ∧ c ≠ '"' ∧ c ≠ '[' ∧ c ≠ '\x7b' ∧ c ≠ '-' ∧ c ≠ ']' ∧
    c ≠ ',' ∧ c ≠ '\x7d' := by
  refine ⟨?_, ?_, ?_, ?_, ?_, ?_, ?_, ?_, ?_, ?_⟩ <;> (intro he; subst he; simp [Char.isDigit] at h)

theorem foldDigits_append (l : List Char) (c : Char) :
    foldDigits (l ++ [c]) = 10 * foldDigits l + charDigit c := by
  simp [foldDigits, List.foldl_append]

theorem foldDigits_natDigitsRev (f k : Nat) (h : k ≤ f) :
    foldDigits ((natDigitsRev f k).reverse) = k := by
  induction f generalizing k with
  | zero =>
    interval_cases k
    rfl
  | succ f ih =>
    rcases Nat.eq_zero_or_pos k with h0 | h0
    · subst h0; rfl
    · obtain ⟨k1, rfl⟩ : ∃ k1, k = k1 + 1 := ⟨k - 1, by omega⟩
      have hk : natDigitsRev (f + 1) (k1 + 1) =
          digitChar ((k1 + 1) % 10) :: natDigitsRev f ((k1 + 1) / 10) := rfl
      have hdiv : (k1 + 1) / 10 ≤ f := by
        have := Nat.div_lt_self h0 (by norm_num : 1 < 10)
        omega
      have hmod : (k1 + 1) % 10 < 10 := Nat.mod_lt _ (by norm_num)
      rw [hk, List.reverse_cons, foldDigits_append, ih _ hdiv, charDigit_digitChar _ hmod]
      omega

theorem natDigitsRev_digits (f k : Nat) : ∀ c ∈ natDigitsRev f k, c.isDigit = true := by
  induction f generalizing k with
  | zero => intro c hc; simp [natDigitsRev] at hc
  | succ f ih =>
    intro c hc
    rcases Nat.eq_zero_or_pos k with h0 | h0
    · subst h0; simp [natDigitsRev] at hc
    · obtain ⟨k1, rfl⟩ : ∃ k1, k = k1 + 1 := ⟨k - 1, by omega⟩
      have hk : natDigitsRev (f + 1) (k1 + 1) =
          digitChar ((k1 + 1) % 10) :: natDigitsRev f ((k1 + 1) / 10) := rfl
      rw [hk] at hc
      rcases List.mem_cons.mp hc with h1 | h1
      · subst h1; exact digitChar_isDigit _
      · exact ih _ c h1

theorem dumpNat_digits (k : Nat) : ∀ c ∈ dumpNat k, c.isDigit = true := by
  intro c hc
  unfold dumpNat at hc
  split at hc
  · simp at hc; subst hc; rfl
  · exact natDigitsRev_digits k k c (List.mem_reverse.mp hc)

theorem dumpNat_ne_nil (k : Nat) : dumpNat k ≠ [] := by
  unfold dumpNat
  split
  · simp
  · intro h
    rw [List.reverse_eq_nil_iff] at h
    have h0 : k ≠ 0 := by assumption
    obtain ⟨k1, rfl⟩ : ∃ k1, k = k1 + 1 := ⟨k - 1, by omega⟩
    exact absurd h (by intro hh; exact List.noConfusion hh)

theorem foldDigits_dumpNat (k : Nat) : foldDigits (dumpNat k) = k := by
  unfold dumpNat
  split
  · subst_vars; rfl
  · exact foldDigits_natDigitsRev k k le_rfl

theorem takeWhile_app (p : Char → Bool) (l r : List Char)
    (hl : ∀ c ∈ l, p c = true) (hr : ∀ c, r.head? = some c → p c = false) :
    (l ++ r).takeWhile p = l ∧ (l ++ r).dropWhile p = r := by
  induction l with
  | nil =>
    simp only [List.nil_append]
    cases r with
    | nil => simp
    | cons c t =>
      have := hr c rfl
      simp [List.takeWhile, List.dropWhile, this]
  | cons c t ih =>
    have hc := hl c (by simp)
    have := ih (fun d hd => hl d (by simp [hd]))
    simp [List.takeWhile, List.dropWhile, hc, this.1, this.2]

theorem skipWs_not_ws (c : Char) (t : List Char) (h : isWs c = false) :
    skipWs (c :: t) = c :: t := by
  simp [skipWs, h]

theorem parseStrBody_escList (l rest : List Char) :
    parseStrBody (escList l ++ '"' :: rest) = some (l, rest) := by
  induction l with
  | nil =>
    rw [escList, List.nil_append, parseStrBody.eq_def]
    simp
  | cons c t ih =>
    by_cases hc : c = '"' ∨ c = '\\'
    · have he : escChar c = ['\\', c] := by simp [escChar, hc]
      have hu : unesc c = c := by
        rcases hc with h1 | h1 <;> subst h1 <;> rfl
      rw [escList, he]
      rw [show ['\\', c] ++ escList t ++ '"' :: rest = '\\' :: c :: (escList t ++ '"' :: rest) by simp]
      rw [parseStrBody.eq_def]
      simp [ih, hu]
    · push_neg at hc
      have he : escChar c = [c] := by
        simp [escChar, hc.1, hc.2]
      rw [escList, he]
      rw [show [c] ++ escList t ++ '"' :: rest = c :: (escList t ++ '"' :: rest) by simp]
      rw [parseStrBody.eq_def]
      simp [hc.1, hc.2, ih]

theorem dumps_head (j : Json) :
    ∃ c t, Json.dumps j = c :: t ∧ isWs c = false ∧ c ≠ ']' := by
  cases j with
  | null => exact ⟨'n', _, rfl, rfl, by decide⟩
  | bool b => cases b
              · exact ⟨'f', _, rfl, rfl, by decide⟩
              · exact ⟨'t', _, rfl, rfl, by decide⟩
  | num n =>
    cases n with
    | ofNat m =>
      have h1 : Json.dumps (Json.num (Int.ofNat m)) = dumpNat m := rfl
      obtain ⟨c, t, hct⟩ : ∃ c t, dumpNat m = c :: t := by
        cases hd : dumpNat m with
        | nil => exact absurd hd (dumpNat_ne_nil m)
        | cons c t => exact ⟨c, t, rfl⟩
      have hdig : c.isDigit = true := dumpNat_digits m c (by rw [hct]; simp)
      exact ⟨c, t, by rw [h1, hct], isDigit_not_ws c hdig, (isDigit_ne c hdig).2.2.2.2.2.2.2.1⟩
    | negSucc m =>
      exact ⟨'-', _, rfl, rfl, by decide⟩
  | str s => exact ⟨'"', _, rfl, rfl, by decide⟩
  | arr xs =>
    exact ⟨'[', dumpsList xs ++ [']'], rfl, rfl, by decide⟩
  | obj kvs =>
    exact ⟨'\x7b', dumpsObj kvs ++ ['\x7d'], rfl, rfl, by decide⟩

/-- Does the input not begin with a decimal digit?  Serialized values are
followed only by such inputs (a delimiter or the end of the document), which
keeps number parsing from consuming past the serialized digits. -/
def noDigitStart : List Char → Bool
  | [] => true
  | c :: _ => !c.isDigit

theorem noDigitStart_head (r : List Char) (h : noDigitStart r = true) :
    ∀ c, r.head? = some c → c.isDigit = false := by
  intro c hc
  cases r with
  | nil => simp at hc
  | cons d t =>
    simp at hc
    subst hc
    simp [noDigitStart] at h
    simp [h]

theorem parseVal_step (f : Nat) (s : List Char) :
    parseVal (f + 1) s =
      match skipWs s with
      | [] => none
      | c :: r =>
        if c = 'n' then (dropLit ['u', 'l', 'l'] r).map (fun r2 => (Json.null, r2))
        else if c = 't' then (dropLit ['r', 'u', 'e'] r).map (fun r2 => (Json.bool true, r2))
        else if c = 'f' then (dropLit ['a', 'l', 's', 'e'] r).map (fun r2 => (Json.bool false, r2))
        else if c = '"' then (parseStrBody r).map (fun p => (Json.str (String.mk p.1), p.2))
        else if c = '[' then
          match skipWs r with
          | d :: r2 =>
            if d = ']' then some (Json.arr [], r2)
            else
              match parseElems f r with
              | some (vs, r2) => some (Json.arr vs, r2)
              | none => none
          | [] => none
        else if c = '\x7b' then
          match skipWs r with
          | d :: r2 =>
            if d = '\x7d' then some (Json.obj [], r2)
            else
              match parseMembers f r with
              | some (kvs, r2) => some (Json.obj kvs, r2)
              | none => none
          | [] => none
        else if c = '-' then
          let ds := r.takeWhile Char.isDigit
          if ds = [] then none
          else some (Json.num (-(Int.ofNat (foldDigits ds))), r.dropWhile Char.isDigit)
        else if c.isDigit then
          some (Json.num (Int.ofNat (foldDigits ((c :: r).takeWhile Char.isDigit))),
                (c :: r).dropWhile Char.isDigit)
        else none := rfl

theorem parseElems_step (f : Nat) (s : List Char) :
    parseElems (f + 1) s =
      match parseVal f s with
      | none => none
      | some (v, r) =>
        match skipWs r with
        | d :: r2 =>
          if d = ',' then
            match parseElems f r2 with
            | some (vs, r3) => some (v :: vs, r3)
            | none => none
          else if d = ']' then some ([v], r2)
          else none
        | [] => none := rfl

theorem parseMembers_step (f : Nat) (s : List Char) :
    parseMembers (f + 1) s =
      match skipWs s with
      | c :: r =>
        if c = '"' then
          match parseStrBody r with
          | none => none
          | some (k, r2) =>
            match skipWs r2 with
            | d :: r3 =>
              if d = ':' then
                match parseVal f r3 with
                | none => none
                | some (v, r4) =>
                  match skipWs r4 with
                  | e :: r5 =>
                    if e = ',' then
                      match parseMembers f r5 with
                      | some (kvs, r6) => some ((String.mk k, v) :: kvs, r6)
                      | none => none
                    else if e = '\x7d' then some ([(String.mk k, v)], r5)
                    else none
                  | [] => none
              else none
            | [] => none
        else none
      | [] => none := rfl

theorem parseVal_dumps :
    ∀ j f rest, Json.need j ≤ f → noDigitStart rest = true →
      parseVal f (Json.dumps j ++ rest) = some (j, rest) := by
  intro j
  induction j using Json.myInd with
  | h0 =>
    intro f rest hf hr
    have h1 : Json.need Json.null = 1 := rfl
    obtain ⟨f1, rfl⟩ : ∃ f1, f = f1 + 1 := ⟨f - 1, by omega⟩
    rw [show Json.dumps Json.null ++ rest = 'n' :: 'u' :: 'l' :: 'l' :: rest from rfl]
    rw [parseVal_step]
    simp [skipWs, isWs, dropLit]
  | h1 b =>
    intro f rest hf hr
    have h1 : Json.need (Json.bool b) = 1 := rfl
    obtain ⟨f1, rfl⟩ : ∃ f1, f = f1 + 1 := ⟨f - 1, by omega⟩
    cases b
    · rw [show Json.dumps (Json.bool false) ++ rest
          = 'f' :: 'a' :: 'l' :: 's' :: 'e' :: rest from rfl]
      rw [parseVal_step]
      simp [skipWs, isWs, dropLit]
    · rw [show Json.dumps (Json.bool true) ++ rest = 't' :: 'r' :: 'u' :: 'e' :: rest from rfl]
      rw [parseVal_step]
      simp [skipWs, isWs, dropLit]
  | h2 n =>
    intro f rest hf hr
    have h1 : Json.need (Json.num n) = 1 := rfl
    obtain ⟨f1, rfl⟩ : ∃ f1, f = f1 + 1 := ⟨f - 1, by omega⟩
    cases n with
    | ofNat m =>
      obtain ⟨c, t, hct⟩ : ∃ c t, dumpNat m = c :: t := by
        cases hd : dumpNat m with
        | nil => exact absurd hd (dumpNat_ne_nil m)
        | cons c t => exact ⟨c, t, rfl⟩
      have hdig : ∀ d ∈ c :: t, Char.isDigit d = true := by
        rw [← hct]; exact dumpNat_digits m
      have hc : c.isDigit = true := hdig c (by simp)
      have hne := isDigit_ne c hc
      have htd := takeWhile_app Char.isDigit (c :: t) rest hdig (noDigitStart_head rest hr)
      simp only [List.cons_append] at htd
      rw [show Json.dumps (Json.num (Int.ofNat m)) ++ rest = c :: (t ++ rest) from by
        rw [show Json.dumps (Json.num (Int.ofNat m)) = dumpNat m from rfl, hct]; simp]
      rw [parseVal_step]
      rw [skipWs_not_ws c _ (isDigit_not_ws c hc)]
      simp only [hne.1, hne.2.1, hne.2.2.1, hne.2.2.2.1, hne.2.2.2.2.1, hne.2.2.2.2.2.1,
        hne.2.2.2.2.2.2.1, hc, if_false, if_true, ite_false, ite_true]
      simp only [htd.1, htd.2]
      rw [← hct, foldDigits_dumpNat]
    | negSucc m =>
      obtain ⟨c, t, hct⟩ : ∃ c t, dumpNat (m + 1) = c :: t := by
        cases hd : dumpNat (m + 1) with
        | nil => exact absurd hd (dumpNat_ne_nil (m + 1))
        | cons c t => exact ⟨c, t, rfl⟩
      have hdig : ∀ d ∈ c :: t, Char.isDigit d = true := by
        rw [← hct]; exact dumpNat_digits (m + 1)
      have htd := takeWhile_app Char.isDigit (c :: t) rest hdig (noDigitStart_head rest hr)
      simp only [List.cons_append] at htd
      rw [show Json.dumps (Json.num (Int.negSucc m)) ++ rest = '-' :: (c :: (t ++ rest)) from by
        rw [show Json.dumps (Json.num (Int.negSucc m)) = '-' :: dumpNat (m + 1) from rfl, hct]
        simp]
      rw [parseVal_step]
      rw [skipWs_not_ws '-' _ rfl]
      simp only [show ('-' = 'n') = False from by simp, show ('-' = 't') = False from by simp,
        show ('-' = 'f') = False from by simp, show ('-' = '"') = False from by simp,
        show ('-' = '[') = False from by simp, show ('-' = '\x7b') = False from by simp,
        if_false, ite_false, ite_true, if_true]
      simp only [htd.1, htd.2]
      rw [← hct, foldDigits_dumpNat]
      simp only [if_neg (dumpNat_ne_nil (m + 1))]
      rfl
  | h3 s =>
    intro f rest hf hr
    have h1 : Json.need (Json.str s) = 1 := rfl
    obtain ⟨f1, rfl⟩ : ∃ f1, f = f1 + 1 := ⟨f - 1, by omega⟩
    rw [show Json.dumps (Json.str s) ++ rest = '"' :: (escList s.data ++ '"' :: rest) from by
      rw [show Json.dumps (Json.str s) = ('"' :: escList s.data) ++ ['"'] from rfl]; simp]
    rw [parseVal_step]
    rw [skipWs_not_ws '"' _ rfl]
    simp [parseStrBody_escList s.data rest]
  | h4 xs ih =>
    intro f rest hf hr
    have hneed : Json.need (Json.arr xs) = 1 + needList xs := rfl
    obtain ⟨f1, rfl⟩ : ∃ f1, f = f1 + 1 := ⟨f - 1, by omega⟩
    have hfl : needList xs ≤ f1 := by omega
    have L2 : ∀ (t : List Json) (x : Json),
        (∀ z ∈ x :: t, ∀ f2 rest2, Json.need z ≤ f2 → noDigitStart rest2 = true →
          parseVal f2 (Json.dumps z ++ rest2) = some (z, rest2)) →
        ∀ f2 rest2, needList (x :: t) ≤ f2 →
        parseElems f2 (dumpsList (x :: t) ++ ']' :: rest2) = some (x :: t, rest2) := by
      intro t
      induction t with
      | nil =>
        intro x hP f2 rest2 hfl2
        have hneed2 : needList [x] = 1 + max (Json.need x) 0 := rfl
        have hmx := Nat.le_max_left (Json.need x) 0
        obtain ⟨g, rfl⟩ : ∃ g, f2 = g + 1 := ⟨f2 - 1, by omega⟩
        rw [show dumpsList [x] ++ ']' :: rest2 = Json.dumps x ++ ']' :: rest2 from rfl]
        rw [parseElems_step]
        rw [hP x (by simp) g (']' :: rest2) (by omega) (by rfl)]
        simp [skipWs, isWs]
      | cons y t2 ihl =>
        intro x hP f2 rest2 hfl2
        have hneed2 : needList (x :: y :: t2) = 1 + max (Json.need x) (needList (y :: t2)) := rfl
        have hmx1 := Nat.le_max_left (Json.need x) (needList (y :: t2))
        have hmx2 := Nat.le_max_right (Json.need x) (needList (y :: t2))
        obtain ⟨g, rfl⟩ : ∃ g, f2 = g + 1 := ⟨f2 - 1, by omega⟩
        rw [show dumpsList (x :: y :: t2) ++ ']' :: rest2
            = Json.dumps x ++ (',' :: (dumpsList (y :: t2) ++ ']' :: rest2)) from by
          rw [show dumpsList (x :: y :: t2) = Json.dumps x ++ ',' :: dumpsList (y :: t2) from rfl]
          simp]
        rw [parseElems_step]
        rw [hP x (by simp) g _ (by omega) (by rfl)]
        simp [skipWs, isWs, ihl y (fun z hz => hP z (by simp at hz ⊢; tauto)) g rest2 (by omega)]
    cases xs with
    | nil =>
      rw [show Json.dumps (Json.arr []) ++ rest = '[' :: ']' :: rest from rfl]
      rw [parseVal_step]
      simp [skipWs, isWs]
    | cons x t =>
      obtain ⟨c0, t0, hct0, hws0, hne0⟩ := dumps_head x
      obtain ⟨u, hu⟩ : ∃ u, dumpsList (x :: t) = c0 :: u := by
        cases t with
        | nil => exact ⟨t0, by rw [show dumpsList [x] = Json.dumps x from rfl, hct0]⟩
        | cons y t2 =>
          refine ⟨t0 ++ ',' :: dumpsList (y :: t2), ?_⟩
          rw [show dumpsList (x :: y :: t2) = Json.dumps x ++ ',' :: dumpsList (y :: t2) from rfl,
            hct0]
          simp
      have hsw : skipWs (dumpsList (x :: t) ++ ']' :: rest) = c0 :: (u ++ ']' :: rest) := by
        rw [hu]
        rw [show (c0 :: u) ++ ']' :: rest = c0 :: (u ++ ']' :: rest) from by simp]
        exact skipWs_not_ws c0 _ hws0
      rw [show Json.dumps (Json.arr (x :: t)) ++ rest = '[' :: (dumpsList (x :: t) ++ ']' :: rest)
          from by
        rw [show Json.dumps (Json.arr (x :: t)) = ('[' :: dumpsList (x :: t)) ++ [']'] from rfl]
        simp]
      rw [parseVal_step]
      rw [skipWs_not_ws '[' _ rfl]
      simp [hsw, hne0, L2 t x ih f1 rest hfl]
  | h5 kvs ih =>
    intro f rest hf hr
    have hneed : Json.need (Json.obj kvs) = 1 + needObj kvs := rfl
    obtain ⟨f1, rfl⟩ : ∃ f1, f = f1 + 1 := ⟨f - 1, by omega⟩
    have hfl : needObj kvs ≤ f1 := by omega
    have L3 : ∀ (t : List (String × Json)) (kv : String × Json),
        (∀ z ∈ kv :: t, ∀ f2 rest2, Json.need z.2 ≤ f2 → noDigitStart rest2 = true →
          parseVal f2 (Json.dumps z.2 ++ rest2) = some (z.2, rest2)) →
        ∀ f2 rest2, needObj (kv :: t) ≤ f2 →
        parseMembers f2 (dumpsObj (kv :: t) ++ '\x7d' :: rest2) = some (kv :: t, rest2) := by
      intro t
      induction t with
      | nil =>
        intro kv hP f2 rest2 hfl2
        have hneed2 : needObj [kv] = 1 + max (Json.need kv.2) 0 := rfl
        have hmx := Nat.le_max_left (Json.need kv.2) 0
        obtain ⟨g, rfl⟩ : ∃ g, f2 = g + 1 := ⟨f2 - 1, by omega⟩
        rw [show dumpsObj [kv] ++ '\x7d' :: rest2
            = '"' :: (escList kv.1.data ++ '"' :: (':' :: (Json.dumps kv.2 ++ '\x7d' :: rest2)))
            from by
          rw [show dumpsObj [kv]
              = '"' :: escList kv.1.data ++ '"' :: ':' :: Json.dumps kv.2 from rfl]
          simp]
        rw [parseMembers_step]
        rw [skipWs_not_ws '"' _ rfl]
        have hk : String.mk kv.1.data = kv.1 := by cases hkv : kv.1; rfl
        simp [skipWs, isWs, parseStrBody_escList, hk,
          hP kv (by simp) g ('\x7d' :: rest2) (by omega) (by rfl)]
      | cons kw t2 ihl =>
        intro kv hP f2 rest2 hfl2
        have hneed2 : needObj (kv :: kw :: t2) = 1 + max (Json.need kv.2) (needObj (kw :: t2)) :=
          rfl
        have hmx1 := Nat.le_max_left (Json.need kv.2) (needObj (kw :: t2))
        have hmx2 := Nat.le_max_right (Json.need kv.2) (needObj (kw :: t2))
        obtain ⟨g, rfl⟩ : ∃ g, f2 = g + 1 := ⟨f2 - 1, by omega⟩
        rw [show dumpsObj (kv :: kw :: t2) ++ '\x7d' :: rest2
            = '"' :: (escList kv.1.data ++ '"' :: (':' :: (Json.dumps kv.2
              ++ ',' :: (dumpsObj (kw :: t2) ++ '\x7d' :: rest2)))) from by
          rw [show dumpsObj (kv :: kw :: t2)
              = ('"' :: escList kv.1.data ++ '"' :: ':' :: Json.dumps kv.2)
                ++ ',' :: dumpsObj (kw :: t2) from rfl]
          simp]
        rw [parseMembers_step]
        rw [skipWs_not_ws '"' _ rfl]
        have hk : String.mk kv.1.data = kv.1 := by cases hkv : kv.1; rfl
        simp [skipWs, isWs, parseStrBody_escList, hk,
          hP kv (by simp) g (',' :: (dumpsObj (kw :: t2) ++ '\x7d' :: rest2)) (by omega) (by rfl),
          ihl kw (fun z hz => hP z (by simp at hz ⊢; tauto)) g rest2 (by omega)]
    cases kvs with
    | nil =>
      rw [show Json.dumps (Json.obj []) ++ rest = '\x7b' :: '\x7d' :: rest from rfl]
      rw [parseVal_step]
      simp [skipWs, isWs]
    | cons kv t =>
      obtain ⟨u, hu⟩ : ∃ u, dumpsObj (kv :: t) = '"' :: u := by
        cases t with
        | nil =>
          exact ⟨escList kv.1.data ++ '"' :: ':' :: Json.dumps kv.2,
            by rw [show dumpsObj [kv]
              = '"' :: escList kv.1.data ++ '"' :: ':' :: Json.dumps kv.2 from rfl]; simp⟩
        | cons kw t2 =>
          refine ⟨(escList kv.1.data ++ '"' :: ':' :: Json.dumps kv.2)
            ++ ',' :: dumpsObj (kw :: t2), ?_⟩
          rw [show dumpsObj (kv :: kw :: t2)
              = ('"' :: escList kv.1.data ++ '"' :: ':' :: Json.dumps kv.2)
                ++ ',' :: dumpsObj (kw :: t2) from rfl]
          simp
      have hsw : skipWs (dumpsObj (kv :: t) ++ '\x7d' :: rest) = '"' :: (u ++ '\x7d' :: rest) := by
        rw [hu]
        rw [show ('"' :: u) ++ '\x7d' :: rest = '"' :: (u ++ '\x7d' :: rest) from by simp]
        exact skipWs_not_ws '"' _ rfl
      rw [show Json.dumps (Json.obj (kv :: t)) ++ rest
          = '\x7b' :: (dumpsObj (kv :: t) ++ '\x7d' :: rest) from by
        rw [show Json.dumps (Json.obj (kv :: t)) = ('\x7b' :: dumpsObj (kv :: t)) ++ ['\x7d']
          from rfl]
        simp]
      rw [parseVal_step]
      rw [skipWs_not_ws '\x7b' _ rfl]
      simp [hsw, L3 t kv ih f1 rest hfl]

theorem need_le : ∀ j, Json.need j ≤ (Json.dumps j).length + 1 := by
  intro j
  induction j using Json.myInd with
  | h0 => rw [show Json.need Json.null = 1 from rfl]; omega
  | h1 b => rw [show Json.need (Json.bool b) = 1 from rfl]; omega
  | h2 n => rw [show Json.need (Json.num n) = 1 from rfl]; omega
  | h3 s => rw [show Json.need (Json.str s) = 1 from rfl]; omega
  | h4 xs ih =>
    have hL : needList xs ≤ (dumpsList xs).length + 2 := by
      induction xs with
      | nil => rw [show needList [] = 0 from rfl]; omega
      | cons x t ihl =>
        have hx : Json.need x ≤ (Json.dumps x).length + 1 := ih x (by simp)
        have ht : needList t ≤ (dumpsList t).length + 2 :=
          ihl (fun z hz => ih z (by simp [hz]))
        rw [show needList (x :: t) = 1 + max (Json.need x) (needList t) from rfl]
        cases t with
        | nil =>
          rw [show dumpsList [x] = Json.dumps x from rfl]
          have hm : max (Json.need x) (needList []) ≤ (Json.dumps x).length + 1 :=
            Nat.max_le.mpr ⟨hx, by rw [show needList [] = 0 from rfl]; omega⟩
          omega
        | cons y t2 =>
          rw [show dumpsList (x :: y :: t2) = Json.dumps x ++ ',' :: dumpsList (y :: t2) from rfl]
          have hm : max (Json.need x) (needList (y :: t2))
              ≤ (Json.dumps x).length + (dumpsList (y :: t2)).length + 2 :=
            Nat.max_le.mpr ⟨by omega, by omega⟩
          simp only [List.length_append, List.length_cons]
          omega
    rw [show Json.need (Json.arr xs) = 1 + needList xs from rfl,
       show Json.dumps (Json.arr xs) = ('[' :: dumpsList xs) ++ [']'] from rfl]
    simp only [List.length_append, List.length_cons, List.length_singleton]
    omega
  | h5 kvs ih =>
    have hL : needObj kvs ≤ (dumpsObj kvs).length + 2 := by
      induction kvs with
      | nil => rw [show needObj [] = 0 from rfl]; omega
      | cons kv t ihl =>
        have hx : Json.need kv.2 ≤ (Json.dumps kv.2).length + 1 := ih kv (by simp)
        have ht : needObj t ≤ (dumpsObj t).length + 2 :=
          ihl (fun z hz => ih z (by simp [hz]))
        rw [show needObj (kv :: t) = 1 + max (Json.need kv.2) (needObj t) from rfl]
        cases t with
        | nil =>
          rw [show dumpsObj [kv] = ('"' :: escList kv.1.data) ++ '"' :: ':' :: Json.dumps kv.2
            from rfl]
          have hm : max (Json.need kv.2) (needObj []) ≤ (Json.dumps kv.2).length + 1 :=
            Nat.max_le.mpr ⟨hx, by rw [show needObj [] = 0 from rfl]; omega⟩
          simp only [List.length_append, List.length_cons]
          omega
        | cons kw t2 =>
          rw [show dumpsObj (kv :: kw :: t2)
              = (('"' :: escList kv.1.data) ++ '"' :: ':' :: Json.dumps kv.2)
                ++ ',' :: dumpsObj (kw :: t2) from rfl]
          have hm : max (Json.need kv.2) (needObj (kw :: t2))
              ≤ (Json.dumps kv.2).length + (dumpsObj (kw :: t2)).length + 2 :=
            Nat.max_le.mpr ⟨by omega, by omega⟩
          simp only [List.length_append, List.length_cons]
          omega
    rw [show Json.need (Json.obj kvs) = 1 + needObj kvs from rfl,
       show Json.dumps (Json.obj kvs) = ('\x7b' :: dumpsObj kvs) ++ ['\x7d'] from rfl]
    simp only [List.length_append, List.length_cons, List.length_singleton]
    omega

/-- The serializer and the parser are inverse: `json.loads` recovers exactly
the document that `json.dump` wrote. -/
theorem loads_dumps (j : Json) : loads (Json.dumps j) = some j := by
  unfold loads
  have h := parseVal_dumps j ((Json.dumps j).length + 1) [] (need_le j) rfl
  rw [List.append_nil] at h
  rw [h]
  rfl

/-- Model of Python's `str.strip` as used by `load_json` on file contents. -/
def stripChars (s : List Char) : List Char :=
  ((s.dropWhile isWs).reverse.dropWhile isWs).reverse

theorem dropWhile_app_single_ne_nil (p : Char → Bool) (l : List Char) (c : Char)
    (hc : p c = false) : l.dropWhile p ++ [c] ≠ [] ∧ (l ++ [c]).dropWhile p ≠ [] := by
  constructor
  · induction l with
    | nil => simp [List.dropWhile]
    | cons a t ih => simp
  · induction l with
    | nil => simp [List.dropWhile, hc]
    | cons a t ih =>
      rw [List.cons_append, List.dropWhile]
      cases hp : p a
      · simp
      · simpa using ih

theorem stripChars_dumps_ne_nil (j : Json) : stripChars (Json.dumps j) ≠ [] := by
  obtain ⟨c, t, hct, hws, _⟩ := dumps_head j
  unfold stripChars
  rw [hct]
  rw [show List.dropWhile isWs (c :: t) = c :: t from by
    rw [List.dropWhile]
    simp [hws]]
  rw [List.reverse_cons]
  intro h
  rw [List.reverse_eq_nil_iff] at h
  exact (dropWhile_app_single_ne_nil isWs t.reverse c hws).2 h

/-- Logical path of the profile document (`db/profile.json`; the source
prefixes its absolute base directory, which never changes the suffix
dispatch below). -/
def PROFILE_JSON : String := "db/profile.json"

/-- Logical path of the projects document. -/
def PROJECTS_JSON : String := "db/projects.json"

/-- Logical path of the config document. -/
def CONFIG_JSON : String := "db/config.json"

/-- Model of Python's `str.endswith` on the characters of the strings. -/
def endsWithS (s suf : String) : Bool := suf.data.isSuffixOf s.data

/-- The all-empty profile object `load_json` builds for a missing or empty
profile store. -/
def profileDefault : Json :=
  Json.obj [("name", Json.str ""), ("email", Json.str ""), ("linkedin", Json.str ""),
    ("github", Json.str ""), ("tagline", Json.str ""), ("about", Json.str ""),
    ("photo_path", Json.str ""), ("resume_path", Json.str "")]

/-- The default config object `load_json` builds for a missing or empty
config store. -/
def configDefault : Json :=
  Json.obj [("skills", Json.obj []), ("certifications", Json.arr []),
    ("offerings", Json.arr []), ("contact_info", Json.obj [])]

/-- The type-specific default `load_json` returns for a missing or empty
store, dispatched on the path suffix.  The source repeats this block
verbatim in its missing-file and empty-file branches; it is factored here. -/
def missingDefault (path : String) : Json :=
  if endsWithS path "profile.json" then profileDefault
  else if endsWithS path "projects.json" then Json.arr []
  else if endsWithS path "config.json" then configDefault
  else Json.obj []

/-- Model of `load_json(path)`: `file` is the content of the file at `path`
(`none` when the file does not exist).  A missing file and a file that is
empty after stripping whitespace yield the type-specific default; content
that fails to parse yields the empty object (the bare `except` branch); the
source strips the content before calling `json.loads`, which accepts
surrounding whitespace anyway, so the parser is applied to the content
directly. -/
def load_json (path : String) (file : Option (List Char)) : Json :=
  match file with
  | none => missingDefault path
  | some content =>
    if stripChars content = [] then missingDefault path
    else
      match loads content with
      | some j => j
      | none => Json.obj []

/-- Model of `save_json(path, data)`: the content written to the file
(`json.dump` of the document). -/
def save_json (data : Json) : List Char := Json.dumps data

/-- A saved document always loads back unchanged (shared helper). -/
theorem load_json_save_json (path : String) (doc : Json) :
    load_json path (some (save_json doc)) = doc := by
  unfold load_json save_json
  simp only [if_neg (stripChars_dumps_ne_nil doc), loads_dumps]

/-- First-match association lookup, modelling Python `dict` access (a dict
has no duplicate keys, so the first match is the only one). -/
def getKeyL : List (String × Json) → String → Option Json
  | [], _ => none
  | kv :: t, k => if kv.1 = k then some kv.2 else getKeyL t k

/-- Value of `key` in a JSON object; `none` on other values or a missing
key. -/
def Json.getKey : Json → String → Option Json
  | .obj kvs, k => getKeyL kvs k
  | _, _ => none

/-- Python dict assignment `d[k] = v` on an association list: overwrite in
place when the key is present (keeping its position), else append at the
end (dict insertion order). -/
def dictSet (kvs : List (String × Json)) (k : String) (v : Json) : List (String × Json) :=
  if kvs.any (fun kv => kv.1 = k) then
    kvs.map (fun kv => if kv.1 = k then (k, v) else kv)
  else kvs ++ [(k, v)]

/-- Assignment `j[k] = v` on a JSON value.  On a non-object the Python
statement raises `TypeError`; that case is outside the modelled domain (the
services only assign into loaded documents, and every claim quantifies over
object-valued profiles). -/
def Json.setKey : Json → String → Json → Json
  | .obj kvs, k, v => .obj (dictSet kvs k v)
  | j, _, _ => j

/-- Python `dict.get(k, default)`. -/
def dictGet (kvs : List (String × Json)) (k : String) (d : Json) : Json :=
  (getKeyL kvs k).getD d

/-- The observable state of the backend: the contents of the three JSON
stores (`none` while the file does not exist) and the generated filenames
written under the two upload folders, in creation order. -/
structure Store where
  profileFile : Option (List Char)
  projectsFile : Option (List Char)
  configFile : Option (List Char)
  profileUploads : List String
  projectsUploads : List String
deriving DecidableEq

/-- Python `name.split(".")` on the characters of the filename. -/
def splitDot : List Char → List (List Char)
  | [] => [[]]
  | c :: t =>
    if c = '.' then [] :: splitDot t
    else
      match splitDot t with
      | [] => [[c]]
      | h :: r => (c :: h) :: r

/-- Model of `save_upload_file`: the generated filename for an upload with
original name `origName`, where `uuidStr` stands for the fresh identifier
`uuid.uuid4()` produced for this call.  The extension is the part after the
last dot when the name contains a dot and that part is non-empty. -/
def save_upload_file (origName uuidStr : String) : String :=
  let parts := splitDot origName.data
  let extension := if parts.length > 1 then parts.getLastD [] else []
  if extension ≠ [] then String.mk (uuidStr.data ++ '.' :: extension) else uuidStr

/-- ASCII lower-casing of one character, as Python `str.lower` acts on the
ASCII filenames this backend inspects. -/
def lowerChar (c : Char) : Char :=
  if 'A' ≤ c ∧ c ≤ 'Z' then Char.ofNat (c.toNat + 32) else c

/-- Model of Python `str.lower`. -/
def lowerS (s : String) : String := String.mk (s.data.map lowerChar)

/-- Model of `GET /api/profile/` (`get_profile`): the loaded document. -/
def get_profile (st : Store) : Json := load_json PROFILE_JSON st.profileFile

/-- Model of the `POST /api/profile/update` handler `update_profile`:
overwrite every key of the loaded profile whose value in `data` is not
`None`, save the result, return it. -/
def update_profile (data : List (String × Json)) (st : Store) : Store × Json :=
  let current := load_json PROFILE_JSON st.profileFile
  let merged := data.foldl
    (fun cur kv => if kv.2 ≠ Json.null then cur.setKey kv.1 kv.2 else cur) current
  ({ st with profileFile := some (save_json merged) }, merged)

/-- Model of `upload_photo`: store the file under `uploads/profile` (no
validation of any kind), set `photo_path` on the loaded profile, save, and
return the public path. -/
def upload_photo (origName uuidStr : String) (st : Store) : Store × String :=
  let filename := save_upload_file origName uuidStr
  let path := "/uploads/profile/" ++ filename
  let profile := (load_json PROFILE_JSON st.profileFile).setKey "photo_path" (Json.str path)
  ({ st with profileUploads := st.profileUploads ++ [filename],
             profileFile := some (save_json profile) }, path)

/-- Model of `upload_resume`: reject with HTTP 400, before any state
change, unless the original filename is truthy and lower-cases to one
ending in `.pdf` (a `None` filename, falsy like the empty string, is
collapsed into the empty-string case); otherwise store the file and set
`resume_path`.  The first component is the state after the call, the
second the HTTP outcome. -/
def upload_resume (origName uuidStr : String) (st : Store) : Store × Except String String :=
  if origName = "" ∨ ¬ (endsWithS (lowerS origName) ".pdf" = true) then
    (st, Except.error "Resume must be a PDF")
  else
    let filename := save_upload_file origName uuidStr
    let path := "/uploads/profile/" ++ filename
    let profile := (load_json PROFILE_JSON st.profileFile).setKey "resume_path" (Json.str path)
    ({ st with profileUploads := st.profileUploads ++ [filename],
               profileFile := some (save_json profile) }, Except.ok path)

/-- Model of `GET /api/projects/` (`get_projects`): the loaded document. -/
def get_projects (st : Store) : Json := load_json PROJECTS_JSON st.projectsFile

/-- The project object `add_project` constructs from the request body: a
fresh server-generated id (`uuidStr`, standing for `str(uuid.uuid4())`),
the six documented fields copied from `data` with their defaults, and
`imagePath` from `data` defaulting to `None` — any client-supplied `id` is
never read. -/
def mkProject (data : List (String × Json)) (uuidStr : String) : Json :=
  Json.obj [
    ("id", Json.str uuidStr),
    ("title", dictGet data "title" (Json.str "")),
    ("description", dictGet data "description" (Json.str "")),
    ("techStack", dictGet data "techStack" (Json.arr [])),
    ("highlights", dictGet data "highlights" (Json.arr [])),
    ("githubUrl", dictGet data "githubUrl" (Json.str "")),
    ("demoUrl", dictGet data "demoUrl" (Json.str "")),
    ("imagePath", dictGet data "imagePath" Json.null)]

/-- Model of `add_project`: append the newly constructed project to the
loaded list and save.  A stored document that is not a list is outside the
modelled domain (the source would crash appending to it; every claim
quantifies over stored lists) and is marked by an error outcome. -/
def add_project (data : List (String × Json)) (uuidStr : String) (st : Store) :
    Store × Except String Json :=
  match load_json PROJECTS_JSON st.projectsFile with
  | Json.arr ps =>
    let newProject := mkProject data uuidStr
    ({ st with projectsFile := some (save_json (Json.arr (ps ++ [newProject]))) },
     Except.ok newProject)
  | _ => (st, Except.error "TypeError")

/-- Does a stored project's `id` field equal the requested id?  Python
compares `p.get("id") != project_id` with `project_id` a string, so only a
string-valued `id` field can ever match. -/
def matchesId (p : Json) (pid : String) : Bool := p.getKey "id" = some (Json.str pid)

/-- Model of `delete_project`: keep every project whose `id` differs from
`project_id`; if the list length is unchanged answer 404 without saving,
else save the filtered list.  Non-list stored documents are outside the
modelled domain, as in `add_project`. -/
def delete_project (project_id : String) (st : Store) : Store × Except String Unit :=
  match load_json PROJECTS_JSON st.projectsFile with
  | Json.arr ps =>
    let new_ps := ps.filter (fun p => ! matchesId p project_id)
    if ps.length = new_ps.length then (st, Except.error "Project not found")
    else ({ st with projectsFile := some (save_json (Json.arr new_ps)) }, Except.ok ())
  | _ => (st, Except.error "TypeError")

/-- One pass of the loop in `upload_project_image`: set `imagePath` on the
first project whose id matches and stop (the source breaks); the flag
reports whether a match was found. -/
def setImage : List Json → String → String → List Json × Bool
  | [], _, _ => ([], false)
  | p :: ps, pid, path =>
    if matchesId p pid then (p.setKey "imagePath" (Json.str path) :: ps, true)
    else
      let rec2 := setImage ps pid path
      (p :: rec2.1, rec2.2)

/-- Model of `upload_project_image`: the file is stored first (exactly one
new generated name under `uploads/projects`), then the loaded list is
scanned; an unknown id answers 404 with the projects document unsaved —
the uploaded file stays on disk. -/
def upload_project_image (project_id origName uuidStr : String) (st : Store) :
    Store × Except String String :=
  let filename := save_upload_file origName uuidStr
  let st1 := { st with projectsUploads := st.projectsUploads ++ [filename] }
  match load_json PROJECTS_JSON st1.projectsFile with
  | Json.arr ps =>
    let path := "/uploads/projects/" ++ filename
    let scan := setImage ps project_id path
    if scan.2 then
      ({ st1 with projectsFile := some (save_json (Json.arr scan.1)) }, Except.ok path)
    else (st1, Except.error "Project not found")
  | _ => (st1, Except.error "TypeError")

/-- Model of `GET /api/config/` (`get_config`): the loaded document. -/
def get_config (st : Store) : Json := load_json CONFIG_JSON st.configFile

/-- Model of `update_config`: full replace of the stored config with the
request body. -/
def update_config (data : Json) (st : Store) : Store :=
  { st with configFile := some (save_json data) }

theorem getKeyL_dictSet_self (kvs : List (String × Json)) (k : String) (v : Json) :
    getKeyL (dictSet kvs k v) k = some v := by
  unfold dictSet
  split
  · case isTrue h =>
    induction kvs with
    | nil => simp at h
    | cons kv t ih =>
      by_cases hk : kv.1 = k
      · simp [getKeyL, hk]
      · simp only [List.map_cons, getKeyL, hk, if_false, ite_false]
        simp at h
        rcases h with h | h
        · exact absurd h hk
        · simpa [getKeyL, hk] using ih (by simpa using h)
  · induction kvs with
    | nil => simp [getKeyL]
    | cons kv t ih =>
      case isFalse h =>
      have hk : ¬ kv.1 = k := by
        intro he
        exact h (by simp [List.any_cons, he])
      simp only [List.cons_append, getKeyL, hk, if_false, ite_false]
      exact ih (by intro ha; exact h (by simp [List.any_cons]; right; simpa using ha))

theorem getKeyL_map_overwrite (t : List (String × Json)) (k k2 : String) (v : Json)
    (h : k2 ≠ k) :
    getKeyL (t.map (fun kv => if kv.1 = k then (k, v) else kv)) k2 = getKeyL t k2 := by
  induction t with
  | nil => rfl
  | cons kv t ih =>
    by_cases hk : kv.1 = k
    · simp [getKeyL, hk, Ne.symm h, ih]
    · simp only [List.map_cons, if_neg hk]
      by_cases hk2 : kv.1 = k2
      · simp [getKeyL, hk2]
      · simp [getKeyL, hk2, ih]

theorem getKeyL_append_single (t : List (String × Json)) (k k2 : String) (v : Json)
    (h : k2 ≠ k) : getKeyL (t ++ [(k, v)]) k2 = getKeyL t k2 := by
  induction t with
  | nil => simp [getKeyL, Ne.symm h]
  | cons kv t ih =>
    by_cases hk2 : kv.1 = k2
    · simp [getKeyL, hk2]
    · simp [getKeyL, hk2, ih]

theorem getKeyL_dictSet_ne (kvs : List (String × Json)) (k k2 : String) (v : Json)
    (h : k2 ≠ k) : getKeyL (dictSet kvs k v) k2 = getKeyL kvs k2 := by
  unfold dictSet
  split
  · exact getKeyL_map_overwrite kvs k k2 v h
  · exact getKeyL_append_single kvs k k2 v h

theorem getKeyL_not_mem (l : List (String × Json)) (k : String)
    (h : k ∉ l.map Prod.fst) : getKeyL l k = none := by
  induction l with
  | nil => rfl
  | cons kv t ih =>
    have h1 : ¬ kv.1 = k := fun he => h (by simp [he])
    have h2 : k ∉ t.map Prod.fst := fun hm => h (by simp [hm])
    simp [getKeyL, h1, ih h2]

theorem foldMerge_getKey (data : List (String × Json)) (kvs : List (String × Json)) (k : String)
    (hnd : (data.map Prod.fst).Nodup) :
    (data.foldl (fun cur kv => if kv.2 ≠ Json.null then cur.setKey kv.1 kv.2 else cur)
        (Json.obj kvs)).getKey k =
      match getKeyL data k with
      | some v => if v = Json.null then getKeyL kvs k else some v
      | none => getKeyL kvs k := by
  induction data generalizing kvs with
  | nil => simp [getKeyL, Json.getKey]
  | cons kv t ih =>
    obtain ⟨k1, v1⟩ := kv
    simp only [List.map_cons, List.nodup_cons] at hnd
    rw [List.foldl_cons]
    by_cases hv : v1 = Json.null
    · rw [show (if (k1, v1).2 ≠ Json.null then (Json.obj kvs).setKey (k1, v1).1 (k1, v1).2
          else Json.obj kvs) = Json.obj kvs from by simp [hv]]
      rw [ih kvs hnd.2]
      by_cases hk : k1 = k
      · have ht : getKeyL t k = none := getKeyL_not_mem t k (by rw [← hk]; exact hnd.1)
        simp [getKeyL, hk, ht, hv]
      · simp [getKeyL, hk]
    · rw [show (if (k1, v1).2 ≠ Json.null then (Json.obj kvs).setKey (k1, v1).1 (k1, v1).2
          else Json.obj kvs) = Json.obj (dictSet kvs k1 v1) from by simp [hv, Json.setKey]]
      rw [ih _ hnd.2]
      by_cases hk : k1 = k
      · have ht : getKeyL t k = none := getKeyL_not_mem t k (by rw [← hk]; exact hnd.1)
        subst hk
        simp [getKeyL, ht, getKeyL_dictSet_self, hv]
      · have := getKeyL_dictSet_ne kvs k1 k v1 (Ne.symm hk)
        simp only [getKeyL, hk, if_false, ite_false, this]

/-- Did an endpoint call succeed (HTTP 2xx) rather than raise an
`HTTPException`? -/
def exceptOk {e a : Type} : Except e a → Bool
  | Except.ok _ => true
  | Except.error _ => false

theorem setImage_no_match (ps : List Json) (pid path : String)
    (h : ∀ p ∈ ps, matchesId p pid = false) : setImage ps pid path = (ps, false) := by
  induction ps with
  | nil => rfl
  | cons p t ih =>
    simp [setImage, h p (by simp), ih (fun q hq => h q (by simp [hq]))]

theorem length_filter_lt (p : Json → Bool) (ps : List Json) (x : Json) (hx : x ∈ ps)
    (hpx : p x = false) : (ps.filter p).length < ps.length := by
  induction ps with
  | nil => simp at hx
  | cons a t ih =>
    rw [List.filter_cons]
    rcases List.mem_cons.mp hx with h | h
    · subst h
      rw [hpx]
      have := List.length_filter_le p t
      simp only [Bool.false_eq_true, if_false, ite_false, List.length_cons]
      omega
    · cases hpa : p a
      · have := List.length_filter_le p t
        simp only [Bool.false_eq_true, if_false, ite_false, List.length_cons]
        omega
      · simpa using ih h

/-- C8: for every well-formed (JSON-serializable) document and every store
path, `save_json` followed by `load_json` returns the same document
unchanged — persistence round-trips. -/
theorem C8_save_then_load_roundtrip (path : String) (doc : Json) :
    load_json path (some (save_json doc)) = doc :=
  load_json_save_json path doc

/-- C1, counterexample: a projects store holding the unparseable content
`[` loads as the empty object `Json.obj []`, while a missing projects store
loads as the empty list — so a corrupt store does not return the same
type-specific default as a missing one. -/
theorem C1_counterexample :
    load_json PROJECTS_JSON (some ['[']) = Json.obj [] ∧
    load_json PROJECTS_JSON none = Json.arr [] ∧
    Json.obj [] ≠ Json.arr [] := by
  refine ⟨by rfl, by rfl, by decide⟩

/-- C1 (amended): loading never raises (`load_json` is total); a store that
exists but is empty after stripping whitespace loads as exactly the same
type-specific default as a missing store, for every path; but a non-empty
unparseable store loads as the empty object `Json.obj []` for all three
document kinds, not as the type-specific default. -/
theorem C1_load_corrupt_amended :
    (∀ (path : String) (content : List Char), stripChars content = [] →
      load_json path (some content) = load_json path none) ∧
    (∀ content : List Char, stripChars content ≠ [] → loads content = none →
      load_json PROFILE_JSON (some content) = Json.obj [] ∧
      load_json PROJECTS_JSON (some content) = Json.obj [] ∧
      load_json CONFIG_JSON (some content) = Json.obj []) := by
  constructor
  · intro path content h
    simp [load_json, h]
  · intro content h1 h2
    refine ⟨?_, ?_, ?_⟩ <;> simp [load_json, h1, h2]

/-- C1 witness: a whitespace-only projects store loads like a missing one,
and a corrupt config store loads as the empty object. -/
theorem C1_witness :
    load_json PROJECTS_JSON (some [' ', '\n']) = load_json PROJECTS_JSON none ∧
    load_json CONFIG_JSON (some ['[']) = Json.obj [] :=
  ⟨C1_load_corrupt_amended.1 PROJECTS_JSON [' ', '\n'] (by rfl),
   (C1_load_corrupt_amended.2 ['['] (by decide) (by rfl)).2.2⟩

/-- C2: profile update is a merge, not a replace: for every stored profile
object and partial-update object, each key reads back as the partial's
value when that value is non-null, and as its previous value when the key
is absent from the partial or null there; the merged document is what is
persisted and returned, and reloading the store yields it again. -/
theorem C2_update_profile_merge (st : Store) (kvs data : List (String × Json)) (k : String)
    (hload : load_json PROFILE_JSON st.profileFile = Json.obj kvs)
    (hnd : (data.map Prod.fst).Nodup) :
    ((update_profile data st).2.getKey k =
      match getKeyL data k with
      | some v => if v = Json.null then getKeyL kvs k else some v
      | none => getKeyL kvs k) ∧
    (update_profile data st).1.profileFile = some (save_json (update_profile data st).2) ∧
    load_json PROFILE_JSON (update_profile data st).1.profileFile = (update_profile data st).2 := by
  unfold update_profile
  simp only [hload]
  exact ⟨foldMerge_getKey data kvs k hnd, by trivial, load_json_save_json _ _⟩

/-- C2 witness: updating a stored profile with `name ↦ "X"` and
`email ↦ null` changes `name` and leaves `email` as it was. -/
theorem C2_witness :
    ((update_profile [("name", Json.str "X"), ("email", Json.null)]
      ⟨some (save_json (Json.obj [("name", Json.str "a"), ("email", Json.str "b")])),
        none, none, [], []⟩).2.getKey "name" = some (Json.str "X")) ∧
    ((update_profile [("name", Json.str "X"), ("email", Json.null)]
      ⟨some (save_json (Json.obj [("name", Json.str "a"), ("email", Json.str "b")])),
        none, none, [], []⟩).2.getKey "email" = some (Json.str "b")) := by
  constructor
  · have h := (C2_update_profile_merge
      ⟨some (save_json (Json.obj [("name", Json.str "a"), ("email", Json.str "b")])),
        none, none, [], []⟩
      [("name", Json.str "a"), ("email", Json.str "b")]
      [("name", Json.str "X"), ("email", Json.null)] "name" (by rfl) (by decide)).1
    rw [h]
    rfl
  · have h := (C2_update_profile_merge
      ⟨some (save_json (Json.obj [("name", Json.str "a"), ("email", Json.str "b")])),
        none, none, [], []⟩
      [("name", Json.str "a"), ("email", Json.str "b")]
      [("name", Json.str "X"), ("email", Json.null)] "email" (by rfl) (by decide)).1
    rw [h]
    rfl

/-- C3: `upload_resume` succeeds exactly when the original filename,
lower-cased, ends in `.pdf` (so `CV.PDF` is accepted); on rejection the
call returns the 400 error with the state completely unchanged — no file
stored, no profile write. -/
theorem C3_upload_resume_pdf_only (origName uuidStr : String) (st : Store) :
    (exceptOk (upload_resume origName uuidStr st).2 = true ↔
      endsWithS (lowerS origName) ".pdf" = true) ∧
    (endsWithS (lowerS origName) ".pdf" = false →
      upload_resume origName uuidStr st = (st, Except.error "Resume must be a PDF")) := by
  unfold upload_resume
  constructor
  · by_cases h0 : origName = ""
    · subst h0
      simp [exceptOk]
      decide
    · by_cases hp : endsWithS (lowerS origName) ".pdf" = true
      · simp [h0, hp, exceptOk]
      · simp [h0, hp, exceptOk]
  · intro hp
    simp [hp]

/-- C3 witness: `CV.PDF` is accepted; `resume.docx` is rejected with the
store untouched. -/
theorem C3_witness :
    exceptOk (upload_resume "CV.PDF" "u1" ⟨none, none, none, [], []⟩).2 = true ∧
    upload_resume "resume.docx" "u2" ⟨none, none, none, [], []⟩
      = (⟨none, none, none, [], []⟩, Except.error "Resume must be a PDF") :=
  ⟨(C3_upload_resume_pdf_only "CV.PDF" "u1" ⟨none, none, none, [], []⟩).1.mpr (by rfl),
   (C3_upload_resume_pdf_only "resume.docx" "u2" ⟨none, none, none, [], []⟩).2 (by rfl)⟩

/-- C4: attaching an image under a project id that matches no stored
project stores exactly one new generated file under the projects upload
category and then reports not-found, leaving the stored projects document
(and everything else) unchanged. -/
theorem C4_upload_image_orphan (project_id origName uuidStr : String) (st : Store)
    (ps : List Json)
    (hload : load_json PROJECTS_JSON st.projectsFile = Json.arr ps)
    (hnone : ∀ p ∈ ps, matchesId p project_id = false) :
    upload_project_image project_id origName uuidStr st =
      ({ st with projectsUploads := st.projectsUploads ++ [save_upload_file origName uuidStr] },
       Except.error "Project not found") := by
  unfold upload_project_image
  simp only [hload, setImage_no_match ps project_id _ hnone]
  simp

/-- C4 witness: attaching to the unknown id `zzz` over a store holding one
project leaves the document alone and records exactly one new upload. -/
theorem C4_witness :
    upload_project_image "zzz" "pic.png" "u7"
      ⟨none, some (save_json (Json.arr [Json.obj [("id", Json.str "a")]])), none, [], []⟩ =
      (⟨none, some (save_json (Json.arr [Json.obj [("id", Json.str "a")]])), none, [],
          [save_upload_file "pic.png" "u7"]⟩,
       Except.error "Project not found") := by
  have h := C4_upload_image_orphan "zzz" "pic.png" "u7"
    ⟨none, some (save_json (Json.arr [Json.obj [("id", Json.str "a")]])), none, [], []⟩
    [Json.obj [("id", Json.str "a")]] (by rfl) (by decide)
  exact h

/-- C5: deleting a project id that matches nothing in the stored list
reports not-found and returns the state unchanged — the document is not
rewritten. -/
theorem C5_delete_unknown_unchanged (project_id : String) (st : Store) (ps : List Json)
    (hload : load_json PROJECTS_JSON st.projectsFile = Json.arr ps)
    (hnone : ∀ p ∈ ps, matchesId p project_id = false) :
    delete_project project_id st = (st, Except.error "Project not found") := by
  unfold delete_project
  have hself : ps.filter (fun p => ! matchesId p project_id) = ps :=
    List.filter_eq_self.mpr (fun a ha => by simp [hnone a ha])
  simp only [hload, hself]
  simp

/-- C5 witness: deleting the unknown id `zzz` over a store holding one
project changes nothing. -/
theorem C5_witness :
    delete_project "zzz"
      ⟨none, some (save_json (Json.arr [Json.obj [("id", Json.str "a")]])), none, [], []⟩ =
      (⟨none, some (save_json (Json.arr [Json.obj [("id", Json.str "a")]])), none, [], []⟩,
       Except.error "Project not found") :=
  C5_delete_unknown_unchanged "zzz"
    ⟨none, some (save_json (Json.arr [Json.obj [("id", Json.str "a")]])), none, [], []⟩
    [Json.obj [("id", Json.str "a")]] (by rfl) (by decide)

/-- C10 (implicit in the source's list comprehension): when at least one
stored project matches the id, delete succeeds and persists the list with
every matching element removed — duplicate ids (possible only through
external edits) are all deleted by the single call — while the
non-matching projects survive in order. -/
theorem C10_delete_removes_all (project_id : String) (st : Store) (ps : List Json)
    (hload : load_json PROJECTS_JSON st.projectsFile = Json.arr ps)
    (hmem : ∃ p ∈ ps, matchesId p project_id = true) :
    delete_project project_id st =
      ({ st with projectsFile := some (save_json (Json.arr
          (ps.filter (fun p => ! matchesId p project_id)))) },
       Except.ok ()) ∧
    get_projects (delete_project project_id st).1
      = Json.arr (ps.filter (fun p => ! matchesId p project_id)) ∧
    ∀ q ∈ ps.filter (fun p => ! matchesId p project_id), matchesId q project_id = false := by
  obtain ⟨x, hx, hpx⟩ := hmem
  have hlt : (ps.filter (fun p => ! matchesId p project_id)).length < ps.length :=
    length_filter_lt _ ps x hx (by simp [hpx])
  have heq : delete_project project_id st =
      ({ st with projectsFile := some (save_json (Json.arr
          (ps.filter (fun p => ! matchesId p project_id)))) },
       Except.ok ()) := by
    unfold delete_project
    have hne2 : (ps.length = (ps.filter (fun p => ! matchesId p project_id)).length) = False :=
      eq_false (by omega)
    simp only [hload, hne2, if_false, ite_false]
  refine ⟨heq, ?_, ?_⟩
  · rw [heq]
    exact load_json_save_json _ _
  · intro q hq
    have := List.of_mem_filter hq
    simpa using this

/-- C10 witness: a store holding two projects with the same id `d` and one
other project: a single delete removes both duplicates and keeps the
other. -/
theorem C10_witness :
    get_projects (delete_project "d"
      ⟨none, some (save_json (Json.arr [Json.obj [("id", Json.str "d")],
        Json.obj [("id", Json.str "e")], Json.obj [("id", Json.str "d")]])),
        none, [], []⟩).1
      = Json.arr [Json.obj [("id", Json.str "e")]] := by
  have h := (C10_delete_removes_all "d"
    ⟨none, some (save_json (Json.arr [Json.obj [("id", Json.str "d")],
      Json.obj [("id", Json.str "e")], Json.obj [("id", Json.str "d")]])),
      none, [], []⟩
    [Json.obj [("id", Json.str "d")], Json.obj [("id", Json.str "e")],
      Json.obj [("id", Json.str "d")]]
    (by rfl) ⟨Json.obj [("id", Json.str "d")], by simp, by decide⟩).2.1
  rw [h]
  rfl

/-- C6: `add_project` builds the new project around the server-generated
id (`uuid.uuid4()`, assumed fresh with respect to the stored ids, which
models its collision resistance) — any client-supplied `id` field in the
body is ignored by construction — appends it at the end of the stored
list, and two successive adds list back in the order added. -/
theorem C6_add_project_fresh_append (data : List (String × Json)) (uuidStr : String)
    (st : Store) (ps : List Json)
    (hload : load_json PROJECTS_JSON st.projectsFile = Json.arr ps)
    (hfresh : ∀ p ∈ ps, p.getKey "id" ≠ some (Json.str uuidStr)) :
    (add_project data uuidStr st).2 = Except.ok (mkProject data uuidStr) ∧
    (mkProject data uuidStr).getKey "id" = some (Json.str uuidStr) ∧
    (∀ p ∈ ps, p.getKey "id" ≠ (mkProject data uuidStr).getKey "id") ∧
    get_projects (add_project data uuidStr st).1 = Json.arr (ps ++ [mkProject data uuidStr]) ∧
    (∀ data2 uuid2,
      get_projects (add_project data2 uuid2 (add_project data uuidStr st).1).1
        = Json.arr (ps ++ [mkProject data uuidStr, mkProject data2 uuid2])) := by
  have hid : (mkProject data uuidStr).getKey "id" = some (Json.str uuidStr) := rfl
  have hstep : add_project data uuidStr st =
      ({ st with projectsFile := some (save_json (Json.arr (ps ++ [mkProject data uuidStr]))) },
       Except.ok (mkProject data uuidStr)) := by
    unfold add_project
    simp only [hload]
  refine ⟨by rw [hstep], hid, ?_, ?_, ?_⟩
  · intro p hp
    rw [hid]
    exact hfresh p hp
  · rw [hstep]
    exact load_json_save_json _ _
  · intro data2 uuid2
    have hload2 : load_json PROJECTS_JSON
        (some (save_json (Json.arr (ps ++ [mkProject data uuidStr]))))
        = Json.arr (ps ++ [mkProject data uuidStr]) := load_json_save_json _ _
    have hstep2 : add_project data2 uuid2
        { st with projectsFile := some (save_json (Json.arr (ps ++ [mkProject data uuidStr]))) } =
        ({ st with projectsFile := some (save_json (Json.arr
            ((ps ++ [mkProject data uuidStr]) ++ [mkProject data2 uuid2]))) },
         Except.ok (mkProject data2 uuid2)) := by
      unfold add_project
      simp only [hload2]
    simp only [hstep, hstep2]
    unfold get_projects
    rw [load_json_save_json]
    simp

/-- C6 witness: two adds over an initially missing projects store (which
loads as the empty list) list back in the order added, with the
server-assigned ids, even though the first body smuggles an `id` field. -/
theorem C6_witness :
    get_projects (add_project [] "u2"
      (add_project [("id", Json.str "evil")] "u1" ⟨none, none, none, [], []⟩).1).1
      = Json.arr [mkProject [("id", Json.str "evil")] "u1", mkProject [] "u2"] ∧
    (mkProject [("id", Json.str "evil")] "u1").getKey "id" = some (Json.str "u1") := by
  have h := C6_add_project_fresh_append [("id", Json.str "evil")] "u1"
    ⟨none, none, none, [], []⟩ [] (by rfl) (by simp)
  exact ⟨by rw [h.2.2.2.2 [] "u2"]; rfl, h.2.1⟩

/-- C7, counterexample: a caller-supplied `imagePath` is copied into the
new project — it is not forced to null at creation. -/
theorem C7_counterexample :
    (mkProject [("imagePath", Json.str "/pic.png")] "id1").getKey "imagePath"
      = some (Json.str "/pic.png") ∧
    some (Json.str "/pic.png") ≠ some Json.null := by
  exact ⟨rfl, by decide⟩

/-- C7 (amended): the project constructed by add carries
`imagePath = data.get("imagePath", None)`: null exactly when the caller
supplies no `imagePath` (or an explicit null); a caller-supplied value is
copied verbatim. -/
theorem C7_imagePath_from_data (data : List (String × Json)) (uuidStr : String) :
    (mkProject data uuidStr).getKey "imagePath"
      = some ((getKeyL data "imagePath").getD Json.null) := rfl

/-- C9, counterexample: `update_profile` with a partial containing
`photo_path` overwrites the stored `photo_path` — upload operations are
not the only writers of these fields. -/
theorem C9_counterexample :
    ((update_profile [("photo_path", Json.str "/x.png")]
      ⟨some (save_json (Json.obj [("photo_path", Json.str "")])),
        none, none, [], []⟩).2.getKey "photo_path" = some (Json.str "/x.png")) ∧
    ((get_profile ⟨some (save_json (Json.obj [("photo_path", Json.str "")])),
        none, none, [], []⟩).getKey "photo_path" = some (Json.str "")) ∧
    ((get_profile (update_profile [("photo_path", Json.str "/x.png")]
      ⟨some (save_json (Json.obj [("photo_path", Json.str "")])),
        none, none, [], []⟩).1).getKey "photo_path" = some (Json.str "/x.png")) := by
  exact ⟨rfl, rfl, rfl⟩

/-- C9 (amended): the upload operations set the upload-path fields —
`upload_photo` sets `photo_path` and an accepted `upload_resume` sets
`resume_path`, both to the public path of the freshly stored file; no
projects or config operation touches them (none ever writes the profile
store); and `update_profile` leaves both unchanged whenever the partial
supplies no non-null value for them, i.e. each key is absent or null
there (the source has no guard, so a partial that does supply a non-null
value overwrites them — see the counterexample). -/
theorem C9_upload_sets_paths (st : Store) (kvs data : List (String × Json))
    (hload : load_json PROFILE_JSON st.profileFile = Json.obj kvs)
    (hnd : (data.map Prod.fst).Nodup)
    (hph : getKeyL data "photo_path" = none ∨ getKeyL data "photo_path" = some Json.null)
    (hrs : getKeyL data "resume_path" = none ∨ getKeyL data "resume_path" = some Json.null) :
    ((update_profile data st).2.getKey "photo_path" = getKeyL kvs "photo_path" ∧
     (update_profile data st).2.getKey "resume_path" = getKeyL kvs "resume_path") ∧
    (∀ origName uuidStr,
      (get_profile (upload_photo origName uuidStr st).1).getKey "photo_path"
        = some (Json.str ("/uploads/profile/" ++ save_upload_file origName uuidStr))) ∧
    (∀ origName uuidStr, endsWithS (lowerS origName) ".pdf" = true →
      (get_profile (upload_resume origName uuidStr st).1).getKey "resume_path"
        = some (Json.str ("/uploads/profile/" ++ save_upload_file origName uuidStr))) ∧
    (∀ pid, (delete_project pid st).1.profileFile = st.profileFile) ∧
    (∀ d u, (add_project d u st).1.profileFile = st.profileFile) ∧
    (∀ pid origName uuidStr,
      (upload_project_image pid origName uuidStr st).1.profileFile = st.profileFile) ∧
    (∀ d, (update_config d st).profileFile = st.profileFile) := by
  refine ⟨⟨?_, ?_⟩, ?_, ?_, ?_, ?_, ?_, ?_⟩
  · have h := foldMerge_getKey data kvs "photo_path" hnd
    unfold update_profile
    simp only [hload]
    rw [h]
    rcases hph with h1 | h1 <;> simp [h1]
  · have h := foldMerge_getKey data kvs "resume_path" hnd
    unfold update_profile
    simp only [hload]
    rw [h]
    rcases hrs with h1 | h1 <;> simp [h1]
  · intro origName uuidStr
    unfold upload_photo get_profile
    simp only [hload]
    rw [load_json_save_json]
    exact getKeyL_dictSet_self kvs "photo_path" _
  · intro origName uuidStr hpdf
    have h0 : ¬ origName = "" := by
      intro he
      subst he
      rw [show endsWithS (lowerS "") ".pdf" = false from rfl] at hpdf
      exact Bool.noConfusion hpdf
    unfold upload_resume get_profile
    rw [if_neg (not_or.mpr ⟨h0, fun hn => hn hpdf⟩)]
    simp only [hload]
    rw [load_json_save_json]
    exact getKeyL_dictSet_self kvs "resume_path" _
  · intro pid
    unfold delete_project
    split
    · dsimp only
      split <;> rfl
    · rfl
  · intro d u
    unfold add_project
    split <;> rfl
  · intro pid origName uuidStr
    simp only [upload_project_image]
    split
    · split <;> rfl
    · rfl
  · intro d
    rfl

/-- C9 witness: over a stored profile with empty upload paths, an update
supplying `name` and an explicitly null `photo_path` leaves `photo_path`
alone, and an accepted resume upload (`CV.PDF`) sets `resume_path` to the
stored file's public path. -/
theorem C9_witness :
    ((update_profile [("name", Json.str "N"), ("photo_path", Json.null)]
      ⟨some (save_json (Json.obj [("photo_path", Json.str ""), ("resume_path", Json.str "")])),
        none, none, [], []⟩).2.getKey "photo_path" = some (Json.str "")) ∧
    ((get_profile (upload_resume "CV.PDF" "u9"
      ⟨some (save_json (Json.obj [("photo_path", Json.str ""), ("resume_path", Json.str "")])),
        none, none, [], []⟩).1).getKey "resume_path"
      = some (Json.str ("/uploads/profile/" ++ save_upload_file "CV.PDF" "u9"))) := by
  have h := C9_upload_sets_paths
    ⟨some (save_json (Json.obj [("photo_path", Json.str ""), ("resume_path", Json.str "")])),
      none, none, [], []⟩
    [("photo_path", Json.str ""), ("resume_path", Json.str "")]
    [("name", Json.str "N"), ("photo_path", Json.null)]
    (by rfl) (by decide) (Or.inr (by rfl)) (Or.inl (by rfl))
  exact ⟨by rw [h.1.1]; rfl, h.2.2.1 "CV.PDF" "u9" (by rfl)⟩
